import Mathlib

set_option autoImplicit false

/-!
Verification of the image-enhancer repository against its specification.

The repository's only source file under version control here is the browser
UI `src/web/src/app/App.tsx`; the backend pipeline (decoder, geometry
planner, enhancement stages, encoder) is described by the specification and
its contract is modelled from the spec where a claim needs it.  JS strings
are modelled as `String`/`List Char`, JS numbers as `ℚ` (exact rationals in
place of IEEE doubles), absent/`undefined` values as `Option`.
-/

namespace ImageEnhancer

/-! ## Data model of the UI (App.tsx) -/

/-- Raw bytes of the uploaded `File` object chosen in the file input. -/
structure FileVal where
  bytes : List ℕ
deriving DecidableEq

/-- A value appended to the multipart `FormData`: either the raw file, or a
number transmitted as its decimal string (`String(x)` in the source).
`numVal none` models the string `"NaN"` produced by `String(parseInt(s))`
when `parseInt` returns NaN. -/
inductive FieldVal where
  | fileVal (f : FileVal)
  | numVal (x : Option ℚ)
deriving DecidableEq

/-- One `(name, value)` pair appended to the `FormData`. -/
structure FormField where
  name : String
  value : FieldVal
deriving DecidableEq

/-- The parsed JSON response of `POST /api/enhance`: four optional
data-URL strings (App.tsx lines 29-34). -/
structure ApiResult where
  png : Option String
  jpg : Option String
  webp : Option String
  apng : Option String
deriving DecidableEq

/-- The React state of `App` (the `useState` hooks, App.tsx lines 16-34). -/
structure FormState where
  file : Option FileVal
  busy : Bool
  error : Option String
  scale : ℚ
  width : String
  height : String
  denoiseLuma : ℚ
  denoiseColor : ℚ
  claheClip : ℚ
  sharpenAmount : ℚ
  sharpenSigma : ℚ
  saturation : ℚ
  result : Option ApiResult

/-- The initial state: the `useState` initializers of App.tsx lines 16-34. -/
def initState : FormState where
  file := none
  busy := false
  error := none
  scale := 2
  width := ""
  height := ""
  denoiseLuma := 5
  denoiseColor := 5
  claheClip := 2
  sharpenAmount := 0.6
  sharpenSigma := 1.2
  saturation := 1.05
  result := none

/-- Whitespace as skipped by JS `parseInt`. -/
def isJsSpace (c : Char) : Bool :=
  c == ' ' || c == '\t' || c == '\n' || c == '\x0d' || c == '\x0c' || c == '\x0b'

/-- Model of JS `parseInt(s)` (radix 10): skip leading whitespace, optional
sign, then the longest run of decimal digits; `none` models NaN. -/
def parseIntJS (s : String) : Option ℤ :=
  let cs := s.toList.dropWhile isJsSpace
  let signAndRest : ℤ × List Char :=
    match cs with
    | '-' :: r => (-1, r)
    | '+' :: r => (1, r)
    | r => (1, r)
  let digits := signAndRest.2.takeWhile Char.isDigit
  if digits = [] then none
  else some (signAndRest.1 * digits.foldl (fun n c => 10 * n + ((c.toNat : ℤ) - 48)) 0)

/-- The `FormData` built by `onSubmit` (App.tsx lines 45-60): the `file`
field, then the geometry fields (`width`/`height` when either text field is
non-empty — JS truthiness of the strings — otherwise `scale`), then the six
enhancement parameters under their snake_case field names. -/
def buildForm (s : FormState) (f : FileVal) : List FormField :=
  [⟨"file", .fileVal f⟩]
  ++ (if s.width ≠ "" ∨ s.height ≠ "" then
        (if s.width ≠ "" then
          [⟨"width", .numVal ((parseIntJS s.width).map (fun z => (z : ℚ)))⟩] else [])
        ++ (if s.height ≠ "" then
          [⟨"height", .numVal ((parseIntJS s.height).map (fun z => (z : ℚ)))⟩] else [])
      else [⟨"scale", .numVal (some s.scale)⟩])
  ++ [⟨"denoise_luma", .numVal (some s.denoiseLuma)⟩,
      ⟨"denoise_color", .numVal (some s.denoiseColor)⟩,
      ⟨"clahe_clip", .numVal (some s.claheClip)⟩,
      ⟨"sharpen_amount", .numVal (some s.sharpenAmount)⟩,
      ⟨"sharpen_sigma", .numVal (some s.sharpenSigma)⟩,
      ⟨"saturation", .numVal (some s.saturation)⟩]

/-! ## dataUrlToBlob (App.tsx lines 5-13) -/

/-- A `Blob`: its byte content and MIME type string. -/
structure Blob where
  bytes : List ℕ
  type : List Char
deriving DecidableEq

/-- Splits a char list at every occurrence of `sep`, as JS `String.split`
with a single-character separator. -/
def splitOnChar (sep : Char) : List Char → List (List Char)
  | [] => [[]]
  | c :: rest =>
      let r := splitOnChar sep rest
      if c = sep then [] :: r
      else (c :: r.headD []) :: r.tail

/-- The base64 character for a 6-bit value (standard alphabet). -/
def b64Char (v : ℕ) : Char :=
  if v < 26 then Char.ofNat (65 + v)
  else if v < 52 then Char.ofNat (97 + (v - 26))
  else if v < 62 then Char.ofNat (48 + (v - 52))
  else if v = 62 then '+' else '/'

/-- The 6-bit value of a base64 alphabet character, `none` otherwise. -/
def b64Val (c : Char) : Option ℕ :=
  if 65 ≤ c.toNat ∧ c.toNat ≤ 90 then some (c.toNat - 65)
  else if 97 ≤ c.toNat ∧ c.toNat ≤ 122 then some (c.toNat - 97 + 26)
  else if 48 ≤ c.toNat ∧ c.toNat ≤ 57 then some (c.toNat - 48 + 52)
  else if c = '+' then some 62
  else if c = '/' then some 63
  else none

/-- Standard base64 encoding of a byte list — the `base64(b)` of the
data-URL encoding the backend performs — with `=` padding. -/
def b64EncodeBytes : List ℕ → List Char
  | [] => []
  | [a] => [b64Char (a / 4), b64Char (a % 4 * 16), '=', '=']
  | [a, b] => [b64Char (a / 4), b64Char (a % 4 * 16 + b / 16), b64Char (b % 16 * 4), '=']
  | a :: b :: c :: rest =>
      b64Char (a / 4) :: b64Char (a % 4 * 16 + b / 16) :: b64Char (b % 16 * 4 + c / 64)
        :: b64Char (c % 64) :: b64EncodeBytes rest

/-- The data characters of the base64 encoding, without the `=` padding. -/
def b64EncodeCore : List ℕ → List Char
  | [] => []
  | [a] => [b64Char (a / 4), b64Char (a % 4 * 16)]
  | [a, b] => [b64Char (a / 4), b64Char (a % 4 * 16 + b / 16), b64Char (b % 16 * 4)]
  | a :: b :: c :: rest =>
      b64Char (a / 4) :: b64Char (a % 4 * 16 + b / 16) :: b64Char (b % 16 * 4 + c / 64)
        :: b64Char (c % 64) :: b64EncodeCore rest

/-- The `=` padding the base64 encoding appends. -/
def b64PadOf : List ℕ → List Char
  | [] => []
  | [_] => ['=', '=']
  | [_, _] => ['=']
  | _ :: _ :: _ :: rest => b64PadOf rest

/-- The 6-bit values the base64 encoding transmits. -/
def b64Vals : List ℕ → List ℕ
  | [] => []
  | [a] => [a / 4, a % 4 * 16]
  | [a, b] => [a / 4, a % 4 * 16 + b / 16, b % 16 * 4]
  | a :: b :: c :: rest =>
      a / 4 :: (a % 4 * 16 + b / 16) :: (b % 16 * 4 + c / 64) :: c % 64 :: b64Vals rest

/-- ASCII whitespace stripped by forgiving-base64 decoding. -/
def isB64Ws (c : Char) : Bool :=
  c == ' ' || c == '\t' || c == '\n' || c == '\x0c' || c == '\x0d'

/-- Remove up to two trailing `=` padding characters. -/
def stripPad (t : List Char) : List Char :=
  match t.reverse with
  | e1 :: e2 :: r =>
      if e1 = '=' then (if e2 = '=' then r.reverse else (e2 :: r).reverse) else t
  | [e1] => if e1 = '=' then [] else t
  | [] => t

/-- Reassemble bytes from 6-bit groups (whole bytes only; the leftover 2 or
4 bits of a trailing group of 3 or 2 values are discarded, as in
forgiving-base64).  A trailing single value cannot occur: the length is
checked before this runs. -/
def quadsToBytes : List ℕ → List ℕ
  | a :: b :: c :: d :: rest =>
      (a * 4 + b / 16) :: (b % 16 * 16 + c / 4) :: (c % 4 * 64 + d) :: quadsToBytes rest
  | [a, b] => [a * 4 + b / 16]
  | [a, b, c] => [a * 4 + b / 16, b % 16 * 16 + c / 4]
  | _ => []

/-- Translate every character to its 6-bit value; `none` as soon as one
character is outside the alphabet. -/
def mapVals : List Char → Option (List ℕ)
  | [] => some []
  | c :: r =>
      match b64Val c, mapVals r with
      | some v, some vs => some (v :: vs)
      | _, _ => none

/-- Model of JS `atob`: forgiving-base64 decode.  Strips ASCII whitespace,
removes padding when the length is a multiple of four, and fails (throws
`InvalidCharacterError`, modelled as `none`) on a leftover length of
1 mod 4 or any character outside the alphabet. -/
def atobJS (s : List Char) : Option (List ℕ) :=
  let t := s.filter (fun c => !isB64Ws c)
  let t2 := if t.length % 4 = 0 then stripPad t else t
  if t2.length % 4 = 1 then none
  else (mapVals t2).map quadsToBytes

/-- Characters JS regex `.` does not match (without the `s` flag). -/
def isJsLineTerm (c : Char) : Bool :=
  c == '\n' || c == '\x0d' || c.toNat == 0x2028 || c.toNat == 0x2029

/-- The longest capture for `(.*);base64` at the current position: the
longest line-terminator-free run of characters followed immediately by
`pat` (JS `.` does not match a line terminator; `.*` is greedy). -/
def greedyCapture (pat : List Char) : List Char → Option (List Char)
  | [] => if pat.isPrefixOf ([] : List Char) then some [] else none
  | c :: rest =>
      match (if isJsLineTerm c then none else greedyCapture pat rest) with
      | some p => some (c :: p)
      | none => if pat.isPrefixOf (c :: rest) then some [] else none

/-- Leftmost-greedy match of the regex `data:(.*);base64` against a string:
the capture group's contents, or `none` when there is no match
(`header.match(/data:(.*);base64/)` in the source). -/
def matchMime : List Char → Option (List Char)
  | [] => none
  | c :: rest =>
      if "data:".toList.isPrefixOf (c :: rest) then
        match greedyCapture ";base64".toList ((c :: rest).drop 5) with
        | some p => some p
        | none => matchMime rest
      else matchMime rest

/-- `dataUrlToBlob` (App.tsx lines 5-13).  The data URL is split at commas;
the first part is the header and the second the base64 body (with fewer
than two parts, `atob(undefined)` coerces its argument to the string
"undefined").  The MIME type is the regex capture from the header,
defaulting to "application/octet-stream"; the blob's bytes are the decoded
char codes.  A thrown `InvalidCharacterError` from `atob` is modelled as
`none`: no blob is returned. -/
def dataUrlToBlob (dataUrl : List Char) : Option Blob :=
  let parts := splitOnChar ',' dataUrl
  let header := parts.headD []
  let mime := (matchMime header).getD "application/octet-stream".toList
  match parts.drop 1 with
  | [] => (atobJS "undefined".toList).map (fun bs => ⟨bs, mime⟩)
  | b64 :: _ => (atobJS b64).map (fun bs => ⟨bs, mime⟩)

/-- How the single `fetch` of a submission resolves: HTTP ok with parsed
JSON, HTTP non-ok status, or a thrown network error with message `msg`
(`""` models an error value with a falsy message). -/
inductive Outcome where
  | ok (data : ApiResult)
  | httpErr (status : ℕ)
  | netErr (msg : String)

/-- Observable steps taken by `onSubmit`: state-setter calls and the HTTP
request that `fetch` issues. -/
inductive Event where
  | setBusy (b : Bool)
  | setError (e : Option String)
  | setResult (r : Option ApiResult)
  | request (url : String) (method : String) (body : List FormField)
deriving DecidableEq

def Event.isRequest : Event → Bool
  | .request _ _ _ => true
  | _ => false

/-- `onSubmit` (App.tsx lines 38-72), given the fetch outcome: the ordered
event trace and the resulting component state.  With no file chosen it
returns immediately; otherwise it sets busy, clears error and result, issues
exactly one POST, then either stores the parsed result or stores an error
message, and finally clears busy. -/
def onSubmit (apiBase : String) (s : FormState) (o : Outcome) :
    List Event × FormState :=
  match s.file with
  | none => ([], s)
  | some f =>
    let req : Event := .request (apiBase ++ "/api/enhance") "POST" (buildForm s f)
    let pre : List Event := [.setBusy true, .setError none, .setResult none, req]
    match o with
    | .ok d =>
        (pre ++ [.setResult (some d), .setBusy false],
         { s with busy := false, error := none, result := some d })
    | .httpErr st =>
        let m := "API error: " ++ toString st
        (pre ++ [.setError (some m), .setBusy false],
         { s with busy := false, error := some m, result := none })
    | .netErr msg =>
        let m := if msg = "" then "Unknown error" else msg
        (pre ++ [.setError (some m), .setBusy false],
         { s with busy := false, error := some m, result := none })

/-- `canSubmit = !!file && !busy` (App.tsx line 36). -/
def canSubmit (s : FormState) : Bool := s.file.isSome && !s.busy

/-- The submit button's `disabled` attribute is `!canSubmit`
(App.tsx line 143). -/
def submitDisabled (s : FormState) : Bool := !canSubmit s

/-- JS truthiness of an optional string: `undefined` and `""` are falsy. -/
def truthyStr : Option String → Bool
  | none => false
  | some s => s ≠ ""

/-- `DownloadButton` (App.tsx lines 74-83) renders nothing when its
`dataUrl` prop is falsy, and renders the anchor/button otherwise. -/
def downloadButtonRenders (dataUrl : Option String) : Bool := truthyStr dataUrl

/-- What the result card shows: whether the preview `<img>` is rendered and
the labels of the rendered download buttons. -/
structure RenderedResult where
  preview : Bool
  buttons : List String
deriving DecidableEq

/-- The conditional result card (App.tsx lines 150-161): nothing while
`result` is null; otherwise the preview when `result.png` is truthy and one
`DownloadButton` per format key, each independently collapsing to nothing
when its key is absent. -/
def renderResult : Option ApiResult → Option RenderedResult
  | none => none
  | some r =>
      some { preview := truthyStr r.png,
             buttons :=
               (if downloadButtonRenders r.png then ["PNG"] else [])
               ++ (if downloadButtonRenders r.jpg then ["JPG"] else [])
               ++ (if downloadButtonRenders r.webp then ["WEBP"] else [])
               ++ (if downloadButtonRenders r.apng then ["APNG"] else []) }

/-! ## Spec-modelled backend components

The backend (`scripts/enhance.py`, `backend/app.py` per the README) is not
present under `src/`; only the browser UI is.  The definitions below are
modelled from the specification's contracts. -/

/-- Modelled from the spec: the error taxonomy of §7; the backend raising
these is missing from src/. -/
inductive EnhanceError where
  | decodeError
  | invalidGeometry
  | invalidOption
  | encodeError
deriving DecidableEq

/-- Modelled from the spec: §3's EnhancementOptions as supplied by a
caller, before range validation; absent geometry fields are `none`. -/
structure EnhancementOptions where
  scale : ℚ
  targetWidth : Option ℤ
  targetHeight : Option ℤ
  denoiseLuma : ℤ
  denoiseColor : ℤ
  claheClip : ℚ
  sharpenAmount : ℚ
  sharpenSigma : ℚ
  saturation : ℚ
deriving DecidableEq

/-- Modelled from the spec: the §3 defaults of EnhancementOptions. -/
def defaultOptions : EnhancementOptions where
  scale := 2
  targetWidth := none
  targetHeight := none
  denoiseLuma := 5
  denoiseColor := 5
  claheClip := 2
  sharpenAmount := 0.6
  sharpenSigma := 1.2
  saturation := 1.05

/-- An optional integer is positive when present. -/
def optPos : Option ℤ → Bool
  | none => true
  | some w => decide (0 < w)

/-- Modelled from the spec: option-range validation per §3's documented
ranges and §7's `InvalidOptionError` ("any numeric option outside its
documented range"); the validation layer is missing from src/. -/
def validateOptions (o : EnhancementOptions) : Except EnhanceError EnhancementOptions :=
  if decide (0 < o.scale) && optPos o.targetWidth && optPos o.targetHeight
      && decide (0 ≤ o.denoiseLuma ∧ o.denoiseLuma ≤ 20)
      && decide (0 ≤ o.denoiseColor ∧ o.denoiseColor ≤ 20)
      && decide ((1 : ℚ)/2 ≤ o.claheClip ∧ o.claheClip ≤ 5)
      && decide (0 ≤ o.sharpenAmount ∧ o.sharpenAmount ≤ 2)
      && decide ((1 : ℚ)/10 ≤ o.sharpenSigma ∧ o.sharpenSigma ≤ 3)
      && decide (0 ≤ o.saturation ∧ o.saturation ≤ 2)
  then .ok o else .error .invalidOption

/-- Modelled from the spec: the Geometry Planner contract of §4.2
(`plan(sourceW, sourceH, options) -> (targetW, targetH)`), missing from
src/, with `round` rounding half toward positive infinity on exact
rationals.  Fails with `InvalidGeometryError` iff a resulting target
dimension is below 1. -/
def planTarget (sourceW sourceH : ℤ) (o : EnhancementOptions) : ℤ × ℤ :=
  match o.targetWidth, o.targetHeight with
  | some w, some h => (w, h)
  | some w, none => (w, round (((w : ℚ) * (sourceH : ℚ)) / (sourceW : ℚ)))
  | none, some h => (round (((h : ℚ) * (sourceW : ℚ)) / (sourceH : ℚ)), h)
  | none, none => (round ((sourceW : ℚ) * o.scale), round ((sourceH : ℚ) * o.scale))

/-- Modelled from the spec: the failure side of §4.2's Geometry Planner,
missing from src/: `InvalidGeometryError` iff a computed target dimension
is below 1, the verbatim/rounded dimensions otherwise. -/
def plan (sourceW sourceH : ℤ) (o : EnhancementOptions) :
    Except EnhanceError (ℤ × ℤ) :=
  let target := planTarget sourceW sourceH o
  if target.1 < 1 ∨ target.2 < 1 then .error .invalidGeometry
  else .ok target

/-! ### Spec-modelled enhancement pipeline (§4.3) -/

/-- Modelled from the spec: the Image of §3 — a (height, width, channels)
array of 8-bit samples stored row-major as a flat list; the pipeline
implementation is missing from src/. -/
structure Image where
  height : ℕ
  width : ℕ
  channels : ℕ
  data : List ℤ
deriving DecidableEq

/-- The §3 Image invariant. -/
def Image.valid (img : Image) : Prop :=
  0 < img.height ∧ 0 < img.width
    ∧ (img.channels = 1 ∨ img.channels = 3 ∨ img.channels = 4)
    ∧ img.data.length = img.height * img.width * img.channels
    ∧ ∀ s ∈ img.data, 0 ≤ s ∧ s ≤ 255

instance (img : Image) : Decidable img.valid := by
  unfold Image.valid; infer_instance

/-- Saturating clamp into the 8-bit sample range: values below 0 become 0
and values above 255 become 255 — saturation, never reduction mod 256. -/
def clamp8 (x : ℤ) : ℤ := max 0 (min 255 x)

/-- Round an exact rational intermediate and clamp it to [0,255]. -/
def clampRound (q : ℚ) : ℤ := clamp8 (round q)

/-- Build a stage output image: every sample is produced by the per-index
formula and then rounded and clamped to the 8-bit range. -/
def mkImage (h w c : ℕ) (f : ℕ → ℚ) : Image :=
  ⟨h, w, c, (List.range (h * w * c)).map (fun i => clampRound (f i))⟩

/-- The sample at (y, x, channel c), with coordinates clamped to the image
bounds (border replication for neighbourhood operations); 0 when the data
list is too short. -/
def Image.px (img : Image) (y x : ℤ) (c : ℕ) : ℤ :=
  let yc := (max 0 (min ((img.height : ℤ) - 1) y)).toNat
  let xc := (max 0 (min ((img.width : ℤ) - 1) x)).toNat
  img.data.getD ((yc * img.width + xc) * img.channels + c) 0

/-- Mean of the color channels of the pixel at (y,x): the lightness used by
the luma-separated stages (channels capped at 3, so alpha is excluded). -/
def Image.luma (img : Image) (y x : ℤ) : ℚ :=
  let n := min img.channels 3
  ((((List.range n).map (fun c => img.px y x c)).sum : ℤ) : ℚ) / (n : ℚ)

/-- 3×3 neighbourhood mean of lightness around (y,x). -/
def Image.lumaNbhd (img : Image) (y x : ℤ) : ℚ :=
  (((List.range 3).map (fun dy =>
      ((List.range 3).map (fun dx =>
        img.luma (y + (dy : ℤ) - 1) (x + (dx : ℤ) - 1))).sum)).sum) / 9

/-- 3×3 neighbourhood mean of the chroma deviation of channel `c`. -/
def Image.devNbhd (img : Image) (y x : ℤ) (c : ℕ) : ℚ :=
  (((List.range 3).map (fun dy =>
      ((List.range 3).map (fun dx =>
        ((img.px (y + (dy : ℤ) - 1) (x + (dx : ℤ) - 1) c : ℤ) : ℚ)
          - img.luma (y + (dy : ℤ) - 1) (x + (dx : ℤ) - 1))).sum)).sum) / 9

/-- Modelled from the spec (§4.3.1): edge-preserving denoise, missing from
src/.  Each pixel splits into lightness and per-channel chroma deviations;
each part blends toward its 3×3 neighbourhood mean with strength
`denoiseLuma/20` resp. `denoiseColor/20` (0 disables that part), except
across strong edges (difference above 32), which are preserved.  Alpha is
copied. -/
def denoiseStage (img : Image) (o : EnhancementOptions) : Image :=
  mkImage img.height img.width img.channels (fun i =>
    let y : ℤ := (i / (img.width * img.channels) : ℕ)
    let x : ℤ := (i / img.channels % img.width : ℕ)
    let c : ℕ := i % img.channels
    if img.channels = 4 ∧ c = 3 then ((img.px y x c : ℤ) : ℚ)
    else
      let l := img.luma y x
      let ln := img.lumaNbhd y x
      let sl : ℚ := (o.denoiseLuma : ℚ) / 20
      let lOut := if |ln - l| > 32 then l else l + sl * (ln - l)
      if img.channels = 1 then lOut
      else
        let d := ((img.px y x c : ℤ) : ℚ) - l
        let dn := img.devNbhd y x c
        let sc : ℚ := (o.denoiseColor : ℚ) / 20
        let dOut := if |dn - d| > 32 then d else d + sc * (dn - d)
        lOut + dOut)

/-- Mean of channel `c` over the whole image. -/
def Image.channelMean (img : Image) (c : ℕ) : ℚ :=
  (((((List.range img.height).map (fun y =>
      ((List.range img.width).map (fun x =>
        img.px (y : ℤ) (x : ℤ) c)).sum)).sum) : ℤ) : ℚ)
    / ((img.height * img.width : ℕ) : ℚ)

/-- Modelled from the spec (§4.3.2): gray-world white balance, missing
from src/.  Each color channel is scaled so its mean converges to the
overall gray average, clamped to [0,255]; alpha and single-channel images
pass through. -/
def whiteBalanceStage (img : Image) (_o : EnhancementOptions) : Image :=
  mkImage img.height img.width img.channels (fun i =>
    let y : ℤ := (i / (img.width * img.channels) : ℕ)
    let x : ℤ := (i / img.channels % img.width : ℕ)
    let c : ℕ := i % img.channels
    if img.channels = 1 ∨ c = 3 then ((img.px y x c : ℤ) : ℚ)
    else
      let gray := (img.channelMean 0 + img.channelMean 1 + img.channelMean 2) / 3
      let m := img.channelMean c
      if m = 0 then ((img.px y x c : ℤ) : ℚ)
      else ((img.px y x c : ℤ) : ℚ) * (gray / m))

/-- Integer lightness (0–255) of the pixel at (y,x). -/
def Image.lumaByte (img : Image) (y x : ℤ) : ℤ := clampRound (img.luma y x)

/-- All pixel coordinates of the image. -/
def Image.coords (img : Image) : List (ℕ × ℕ) :=
  (List.range (img.height * img.width)).map (fun p => (p / img.width, p % img.width))

/-- Index of the 8×8-grid tile containing position `v` along an axis of
the given extent. -/
def tileOf (extent v : ℕ) : ℕ := v * 8 / extent

/-- The pixels sharing the tile of (y,x). -/
def Image.tileMates (img : Image) (y x : ℕ) : List (ℕ × ℕ) :=
  img.coords.filter (fun p =>
    tileOf img.height p.1 == tileOf img.height y
      && tileOf img.width p.2 == tileOf img.width x)

/-- Histogram bin `v` of the lightness over the pixel list `pts`. -/
def Image.histCount (img : Image) (pts : List (ℕ × ℕ)) (v : ℕ) : ℕ :=
  pts.countP (fun p => img.lumaByte (p.1 : ℤ) (p.2 : ℤ) == (v : ℤ))

/-- Modelled from the spec (§4.3.3): CLAHE-style local contrast, missing
from src/.  Per 8×8-grid tile, the lightness histogram is clipped at
`claheClip × n/256` per bin, the clipped excess is redistributed evenly,
and the pixel's lightness maps through the tile's cumulative distribution;
the lightness delta is applied to the color channels (luma-separated, so
hue is untouched), clamped. -/
def claheStage (img : Image) (o : EnhancementOptions) : Image :=
  mkImage img.height img.width img.channels (fun i =>
    let yn : ℕ := i / (img.width * img.channels)
    let xn : ℕ := i / img.channels % img.width
    let c : ℕ := i % img.channels
    if img.channels = 4 ∧ c = 3 then ((img.px (yn : ℤ) (xn : ℤ) c : ℤ) : ℚ)
    else
      let pts := img.tileMates yn xn
      let n := pts.length
      let lim : ℕ := max 1 (round (o.claheClip * (n : ℚ) / 256)).toNat
      let excess : ℕ :=
        ((List.range 256).map (fun v =>
          img.histCount pts v - min (img.histCount pts v) lim)).sum
      let redist : ℕ → ℕ := fun v => min (img.histCount pts v) lim + excess / 256
      let lb := img.lumaByte (yn : ℤ) (xn : ℤ)
      let cdf : ℕ :=
        (((List.range 256).filter (fun (v : ℕ) => decide (((v : ℕ) : ℤ) ≤ lb))).map redist).sum
      let total : ℕ := ((List.range 256).map redist).sum
      let newL : ℚ := if total = 0 then (lb : ℚ) else 255 * (cdf : ℚ) / (total : ℚ)
      ((img.px (yn : ℤ) (xn : ℤ) c : ℤ) : ℚ) + (newL - (lb : ℚ)))

/-- The color-channel samples of the image (alpha excluded). -/
def Image.colorSamples (img : Image) : List ℤ :=
  let cc := min img.channels 3
  (List.range (img.height * img.width * cc)).map (fun j =>
    img.px ((j / (img.width * cc) : ℕ) : ℤ) (((j / cc) % img.width : ℕ) : ℤ) (j % cc))

/-- Modelled from the spec (§4.3.4): global contrast stretch, missing from
src/.  The 1%/99% percentile intensities are taken from the histogram of
color samples and intensity is remapped linearly so they reach the 0/255
extremes, clamped; alpha passes through. -/
def stretchStage (img : Image) (_o : EnhancementOptions) : Image :=
  mkImage img.height img.width img.channels (fun i =>
    let y : ℤ := (i / (img.width * img.channels) : ℕ)
    let x : ℤ := (i / img.channels % img.width : ℕ)
    let c : ℕ := i % img.channels
    if img.channels = 4 ∧ c = 3 then ((img.px y x c : ℤ) : ℚ)
    else
      let samples := img.colorSamples
      let n := samples.length
      let loN : ℕ :=
        ((List.range 256).find? (fun (v : ℕ) =>
          decide (n ≤ samples.countP (fun s => decide (s ≤ ((v : ℕ) : ℤ))) * 100))).getD 0
      let hiN : ℕ :=
        (((List.range 256).reverse).find? (fun (v : ℕ) =>
          decide (n ≤ samples.countP (fun s => decide (((v : ℕ) : ℤ) ≤ s)) * 100))).getD 255
      let lo : ℤ := (loN : ℤ)
      let hi : ℤ := (hiN : ℤ)
      if lo < hi then (((img.px y x c : ℤ) : ℚ) - (lo : ℚ)) * 255 / ((hi : ℚ) - (lo : ℚ))
      else ((img.px y x c : ℤ) : ℚ))

/-- Catmull-Rom cubic kernel: the standard 4-tap rational approximation of
a windowed-sinc interpolation kernel. -/
def cubicKernel (t : ℚ) : ℚ :=
  let a := |t|
  if a ≤ 1 then (3 * a ^ 3 - 5 * a ^ 2 + 2) / 2
  else if a ≤ 2 then (-(a ^ 3) + 5 * a ^ 2 - 8 * a + 4) / 2
  else 0

/-- Modelled from the spec (§4.3.5): resampling to the planned target
dimensions with a separable 4-tap windowed kernel, missing from src/ (the
README names Lanczos4; the sinc window is modelled by its standard cubic
rational approximation).  Weights are normalized and samples clamp to
[0,255]. -/
def resizeStage (img : Image) (tw th : ℕ) : Image :=
  mkImage th tw img.channels (fun i =>
    let y : ℕ := i / (tw * img.channels)
    let x : ℕ := i / img.channels % tw
    let c : ℕ := i % img.channels
    let sy : ℚ := ((y : ℚ) + 1/2) * (img.height : ℚ) / (th : ℚ) - 1/2
    let sx : ℚ := ((x : ℚ) + 1/2) * (img.width : ℚ) / (tw : ℚ) - 1/2
    let iy : ℤ := ⌊sy⌋
    let ix : ℤ := ⌊sx⌋
    let taps : List ℤ := [-1, 0, 1, 2]
    let wsum := ((taps.map (fun dy => cubicKernel (sy - ((iy + dy : ℤ) : ℚ)))).sum)
              * ((taps.map (fun dx => cubicKernel (sx - ((ix + dx : ℤ) : ℚ)))).sum)
    let acc := (taps.map (fun dy =>
        (taps.map (fun dx =>
          cubicKernel (sy - ((iy + dy : ℤ) : ℚ)) * cubicKernel (sx - ((ix + dx : ℤ) : ℚ))
            * ((img.px (iy + dy) (ix + dx) c : ℤ) : ℚ))).sum)).sum
    if wsum = 0 then ((img.px iy ix c : ℤ) : ℚ) else acc / wsum)

/-- Rational stand-in for Gaussian weights at offset `d`, radius `r`: the
bell `(1 − (d/(r+1))²)²`. -/
def gaussWeight (r : ℕ) (d : ℤ) : ℚ :=
  (1 - ((d : ℚ) / ((r : ℚ) + 1)) ^ 2) ^ 2

/-- Blurred sample at (y,x,c): normalized bell-weighted mean over radius
`max 1 round(2σ)`. -/
def Image.blurAt (img : Image) (sigma : ℚ) (y x : ℤ) (c : ℕ) : ℚ :=
  let r : ℕ := max 1 (round (2 * sigma)).toNat
  let offs : List ℤ := (List.range (2 * r + 1)).map (fun k => (k : ℤ) - (r : ℤ))
  let wsum := ((offs.map (fun dy => gaussWeight r dy)).sum)
            * ((offs.map (fun dx => gaussWeight r dx)).sum)
  let acc := (offs.map (fun dy =>
      (offs.map (fun dx =>
        gaussWeight r dy * gaussWeight r dx * ((img.px (y + dy) (x + dx) c : ℤ) : ℚ))).sum)).sum
  if wsum = 0 then ((img.px y x c : ℤ) : ℚ) else acc / wsum

/-- Modelled from the spec (§4.3.6): unsharp mask, missing from src/:
`out = original + sharpenAmount × (original − blurred)`, clamped to
[0,255]; alpha passes through. -/
def sharpenStage (img : Image) (o : EnhancementOptions) : Image :=
  mkImage img.height img.width img.channels (fun i =>
    let y : ℤ := (i / (img.width * img.channels) : ℕ)
    let x : ℤ := (i / img.channels % img.width : ℕ)
    let c : ℕ := i % img.channels
    if img.channels = 4 ∧ c = 3 then ((img.px y x c : ℤ) : ℚ)
    else ((img.px y x c : ℤ) : ℚ)
      + o.sharpenAmount * (((img.px y x c : ℤ) : ℚ) - img.blurAt o.sharpenSigma y x c))

/-- Modelled from the spec (§4.3.7): saturation adjustment, missing from
src/: in a lightness/deviation space the deviations from gray scale by the
`saturation` factor, clamped; color channels only. -/
def saturationStage (img : Image) (o : EnhancementOptions) : Image :=
  mkImage img.height img.width img.channels (fun i =>
    let y : ℤ := (i / (img.width * img.channels) : ℕ)
    let x : ℤ := (i / img.channels % img.width : ℕ)
    let c : ℕ := i % img.channels
    if img.channels = 1 ∨ c = 3 then ((img.px y x c : ℤ) : ℚ)
    else
      let l := img.luma y x
      l + o.saturation * (((img.px y x c : ℤ) : ℚ) - l))

/-- Modelled from the spec (§6, §7): the `enhance` entry point's
validate-before-process order, missing from src/: options are
range-validated, geometry is planned, and only then do the pipeline stages
run; the first failure aborts the request. -/
def enhance (img : Image) (o : EnhancementOptions) : Except EnhanceError Image := do
  let ov ← validateOptions o
  let t ← plan (img.width : ℤ) (img.height : ℤ) ov
  let i1 := denoiseStage img ov
  let i2 := whiteBalanceStage i1 ov
  let i3 := claheStage i2 ov
  let i4 := stretchStage i3 ov
  let i5 := resizeStage i4 t.1.toNat t.2.toNat
  let i6 := sharpenStage i5 ov
  pure (saturationStage i6 ov)

/-- A state with a chosen file, used to instantiate witnesses. -/
def stWithFile : FormState := { initState with file := some ⟨[7]⟩ }

/-- An all-absent API result, used to instantiate witnesses. -/
def emptyResult : ApiResult := ⟨none, none, none, none⟩

/-! ## Helper lemmas -/

theorem clamp8_nonneg (x : ℤ) : 0 ≤ clamp8 x := le_max_left 0 _

theorem clamp8_le_255 (x : ℤ) : clamp8 x ≤ 255 :=
  max_le (by norm_num) (min_le_left _ _)

theorem mem_mkImage {h w c : ℕ} {f : ℕ → ℚ} {s : ℤ}
    (hs : s ∈ (mkImage h w c f).data) : 0 ≤ s ∧ s ≤ 255 := by
  rcases List.mem_map.mp hs with ⟨i, _, rfl⟩
  exact ⟨clamp8_nonneg _, clamp8_le_255 _⟩

theorem b64Char_facts :
    ∀ v : ℕ, v < 64 → b64Val (b64Char v) = some v ∧ isB64Ws (b64Char v) = false
      ∧ b64Char v ≠ '=' ∧ b64Char v ≠ ',' := by decide

theorem filter_b64EncodeBytes (b : List ℕ) (hb : ∀ x ∈ b, x < 256) :
    (b64EncodeBytes b).filter (fun c => !isB64Ws c) = b64EncodeBytes b := by
  induction b using b64EncodeBytes.induct with
  | case1 => rfl
  | case2 a =>
      have h1 : a < 256 := hb a (by simp)
      have w1 := (b64Char_facts (a / 4) (by omega)).2.1
      have w2 := (b64Char_facts (a % 4 * 16) (by omega)).2.1
      have wp : isB64Ws ('=' : Char) = false := by decide
      simp [b64EncodeBytes, w1, w2, wp]
  | case3 a b =>
      have h1 : a < 256 := hb a (by simp)
      have h2 : b < 256 := hb b (by simp)
      have w1 := (b64Char_facts (a / 4) (by omega)).2.1
      have w2 := (b64Char_facts (a % 4 * 16 + b / 16) (by omega)).2.1
      have w3 := (b64Char_facts (b % 16 * 4) (by omega)).2.1
      have wp : isB64Ws ('=' : Char) = false := by decide
      simp [b64EncodeBytes, w1, w2, w3, wp]
  | case4 a b c rest ih =>
      have h1 : a < 256 := hb a (by simp)
      have h2 : b < 256 := hb b (by simp)
      have h3 : c < 256 := hb c (by simp)
      have ih' := ih (fun x hx => hb x (by simp [hx]))
      have w1 := (b64Char_facts (a / 4) (by omega)).2.1
      have w2 := (b64Char_facts (a % 4 * 16 + b / 16) (by omega)).2.1
      have w3 := (b64Char_facts (b % 16 * 4 + c / 64) (by omega)).2.1
      have w4 := (b64Char_facts (c % 64) (by omega)).2.1
      simp [b64EncodeBytes, w1, w2, w3, w4, ih']

theorem length_b64EncodeBytes_mod (b : List ℕ) : (b64EncodeBytes b).length % 4 = 0 := by
  induction b using b64EncodeBytes.induct with
  | case1 => rfl
  | case2 a => simp [b64EncodeBytes]
  | case3 a b => simp [b64EncodeBytes]
  | case4 a b c rest ih => simp [b64EncodeBytes]; omega

theorem b64EncodeBytes_eq_core_pad (b : List ℕ) :
    b64EncodeBytes b = b64EncodeCore b ++ b64PadOf b := by
  induction b using b64EncodeBytes.induct with
  | case1 => rfl
  | case2 a => rfl
  | case3 a b => rfl
  | case4 a b c rest ih => simp [b64EncodeBytes, b64EncodeCore, b64PadOf, ih]

theorem comma_not_mem_b64EncodeBytes (b : List ℕ) (hb : ∀ x ∈ b, x < 256) :
    ',' ∉ b64EncodeBytes b := by
  induction b using b64EncodeBytes.induct with
  | case1 => simp [b64EncodeBytes]
  | case2 a =>
      have h1 : a < 256 := hb a (by simp)
      have w1 := Ne.symm (b64Char_facts (a / 4) (by omega)).2.2.2
      have w2 := Ne.symm (b64Char_facts (a % 4 * 16) (by omega)).2.2.2
      simp [b64EncodeBytes, w1, w2]
  | case3 a b =>
      have h1 : a < 256 := hb a (by simp)
      have h2 : b < 256 := hb b (by simp)
      have w1 := Ne.symm (b64Char_facts (a / 4) (by omega)).2.2.2
      have w2 := Ne.symm (b64Char_facts (a % 4 * 16 + b / 16) (by omega)).2.2.2
      have w3 := Ne.symm (b64Char_facts (b % 16 * 4) (by omega)).2.2.2
      simp [b64EncodeBytes, w1, w2, w3]
  | case4 a b c rest ih =>
      have h1 : a < 256 := hb a (by simp)
      have h2 : b < 256 := hb b (by simp)
      have h3 : c < 256 := hb c (by simp)
      have ih' := ih (fun x hx => hb x (by simp [hx]))
      have w1 := Ne.symm (b64Char_facts (a / 4) (by omega)).2.2.2
      have w2 := Ne.symm (b64Char_facts (a % 4 * 16 + b / 16) (by omega)).2.2.2
      have w3 := Ne.symm (b64Char_facts (b % 16 * 4 + c / 64) (by omega)).2.2.2
      have w4 := Ne.symm (b64Char_facts (c % 64) (by omega)).2.2.2
      simp [b64EncodeBytes, w1, w2, w3, w4, ih']

theorem pad_char_not_mem_core (b : List ℕ) (hb : ∀ x ∈ b, x < 256) :
    '=' ∉ b64EncodeCore b := by
  induction b using b64EncodeCore.induct with
  | case1 => simp [b64EncodeCore]
  | case2 a =>
      have h1 : a < 256 := hb a (by simp)
      have w1 := Ne.symm (b64Char_facts (a / 4) (by omega)).2.2.1
      have w2 := Ne.symm (b64Char_facts (a % 4 * 16) (by omega)).2.2.1
      simp [b64EncodeCore, w1, w2]
  | case3 a b =>
      have h1 : a < 256 := hb a (by simp)
      have h2 : b < 256 := hb b (by simp)
      have w1 := Ne.symm (b64Char_facts (a / 4) (by omega)).2.2.1
      have w2 := Ne.symm (b64Char_facts (a % 4 * 16 + b / 16) (by omega)).2.2.1
      have w3 := Ne.symm (b64Char_facts (b % 16 * 4) (by omega)).2.2.1
      simp [b64EncodeCore, w1, w2, w3]
  | case4 a b c rest ih =>
      have h1 : a < 256 := hb a (by simp)
      have h2 : b < 256 := hb b (by simp)
      have h3 : c < 256 := hb c (by simp)
      have ih' := ih (fun x hx => hb x (by simp [hx]))
      have w1 := Ne.symm (b64Char_facts (a / 4) (by omega)).2.2.1
      have w2 := Ne.symm (b64Char_facts (a % 4 * 16 + b / 16) (by omega)).2.2.1
      have w3 := Ne.symm (b64Char_facts (b % 16 * 4 + c / 64) (by omega)).2.2.1
      have w4 := Ne.symm (b64Char_facts (c % 64) (by omega)).2.2.1
      simp [b64EncodeCore, w1, w2, w3, w4, ih']

theorem two_le_core_length (b : List ℕ) (h : b ≠ []) :
    2 ≤ (b64EncodeCore b).length := by
  induction b using b64EncodeCore.induct with
  | case1 => exact absurd rfl h
  | case2 a => simp [b64EncodeCore]
  | case3 a b => simp [b64EncodeCore]
  | case4 a b c rest ih => simp [b64EncodeCore]

theorem core_length_mod_ne_one (b : List ℕ) : (b64EncodeCore b).length % 4 ≠ 1 := by
  induction b using b64EncodeCore.induct with
  | case1 => simp [b64EncodeCore]
  | case2 a => simp [b64EncodeCore]
  | case3 a b => simp [b64EncodeCore]
  | case4 a b c rest ih => simp [b64EncodeCore]; omega

theorem quadsToBytes_b64Vals (b : List ℕ) (hb : ∀ x ∈ b, x < 256) :
    quadsToBytes (b64Vals b) = b := by
  induction b using b64Vals.induct with
  | case1 => rfl
  | case2 a =>
      simp only [b64Vals, quadsToBytes]
      refine List.cons_eq_cons.mpr ⟨by omega, rfl⟩
  | case3 a b =>
      have h2 : b < 256 := hb b (by simp)
      simp only [b64Vals, quadsToBytes]
      refine List.cons_eq_cons.mpr ⟨by omega, ?_⟩
      refine List.cons_eq_cons.mpr ⟨by omega, rfl⟩
  | case4 a b c rest ih =>
      have h2 : b < 256 := hb b (by simp)
      have h3 : c < 256 := hb c (by simp)
      have ih' := ih (fun x hx => hb x (by simp [hx]))
      simp only [b64Vals, quadsToBytes, ih']
      refine List.cons_eq_cons.mpr ⟨by omega, ?_⟩
      refine List.cons_eq_cons.mpr ⟨by omega, ?_⟩
      refine List.cons_eq_cons.mpr ⟨by omega, rfl⟩

theorem stripPad_of_pad_not_mem (t : List Char) (h : '=' ∉ t) : stripPad t = t := by
  unfold stripPad
  cases hrev : t.reverse with
  | nil => rfl
  | cons e1 r1 =>
      have he1 : e1 ∈ t := by
        rw [← List.mem_reverse, hrev]; exact List.mem_cons_self _ _
      have hne : e1 ≠ '=' := fun he => h (he ▸ he1)
      cases r1 with
      | nil => simp [hne]
      | cons e2 r2 => simp [hne]

theorem stripPad_append (u X : List Char) (h : 2 ≤ X.length) :
    stripPad (u ++ X) = u ++ stripPad X := by
  obtain ⟨e1, e2, r, hrev⟩ : ∃ e1 e2 r, X.reverse = e1 :: e2 :: r := by
    cases hX : X.reverse with
    | nil =>
        rw [← List.length_reverse, hX] at h; simp at h
    | cons e1 t1 =>
        cases t1 with
        | nil =>
            rw [← List.length_reverse, hX] at h; simp at h
        | cons e2 r => exact ⟨e1, e2, r, rfl⟩
  have hrev2 : (u ++ X).reverse = e1 :: e2 :: (r ++ u.reverse) := by
    simp [List.reverse_append, hrev]
  unfold stripPad
  rw [hrev, hrev2]
  by_cases h1 : e1 = '=' <;> by_cases h2 : e2 = '=' <;>
    simp [h1, h2, List.reverse_append]

theorem stripPad_core_pad (b : List ℕ) (hb : ∀ x ∈ b, x < 256) :
    stripPad (b64EncodeCore b ++ b64PadOf b) = b64EncodeCore b := by
  induction b using b64EncodeCore.induct with
  | case1 => rfl
  | case2 a =>
      show stripPad (b64EncodeCore [a] ++ ['=', '=']) = b64EncodeCore [a]
      unfold stripPad b64EncodeCore
      simp
  | case3 a b =>
      have h2 : b < 256 := hb b (by simp)
      have w3 := (b64Char_facts (b % 16 * 4) (by omega)).2.2.1
      show stripPad (b64EncodeCore [a, b] ++ ['=']) = b64EncodeCore [a, b]
      unfold stripPad b64EncodeCore
      simp [w3]
  | case4 a b c rest ih =>
      rcases Decidable.em (rest = []) with hrest | hrest
      · subst hrest
        have h3 : c < 256 := hb c (by simp)
        have hne : '=' ∉ b64EncodeCore [a, b, c] := pad_char_not_mem_core _ hb
        show stripPad (b64EncodeCore [a, b, c] ++ b64PadOf [a, b, c])
          = b64EncodeCore [a, b, c]
        have hpad : b64PadOf [a, b, c] = [] := rfl
        rw [hpad, List.append_nil, stripPad_of_pad_not_mem _ hne]
      · have ih' := ih (fun x hx => hb x (by simp [hx]))
        have hlen : 2 ≤ (b64EncodeCore rest ++ b64PadOf rest).length := by
          have := two_le_core_length rest hrest
          simp only [List.length_append]
          omega
        show stripPad (b64EncodeCore (a :: b :: c :: rest)
            ++ b64PadOf (a :: b :: c :: rest)) = b64EncodeCore (a :: b :: c :: rest)
        have hcore : b64EncodeCore (a :: b :: c :: rest)
            = [b64Char (a / 4), b64Char (a % 4 * 16 + b / 16),
               b64Char (b % 16 * 4 + c / 64), b64Char (c % 64)]
              ++ b64EncodeCore rest := by
          simp [b64EncodeCore]
        have hpad : b64PadOf (a :: b :: c :: rest) = b64PadOf rest := rfl
        rw [hcore, hpad, List.append_assoc, stripPad_append _ _ hlen, ih']

theorem mapVals_core (b : List ℕ) (hb : ∀ x ∈ b, x < 256) :
    mapVals (b64EncodeCore b) = some (b64Vals b) := by
  induction b using b64EncodeCore.induct with
  | case1 => rfl
  | case2 a =>
      have h1 : a < 256 := hb a (by simp)
      have v1 := (b64Char_facts (a / 4) (by omega)).1
      have v2 := (b64Char_facts (a % 4 * 16) (by omega)).1
      simp [b64EncodeCore, b64Vals, mapVals, v1, v2]
  | case3 a b =>
      have h1 : a < 256 := hb a (by simp)
      have h2 : b < 256 := hb b (by simp)
      have v1 := (b64Char_facts (a / 4) (by omega)).1
      have v2 := (b64Char_facts (a % 4 * 16 + b / 16) (by omega)).1
      have v3 := (b64Char_facts (b % 16 * 4) (by omega)).1
      simp [b64EncodeCore, b64Vals, mapVals, v1, v2, v3]
  | case4 a b c rest ih =>
      have h1 : a < 256 := hb a (by simp)
      have h2 : b < 256 := hb b (by simp)
      have h3 : c < 256 := hb c (by simp)
      have ih' := ih (fun x hx => hb x (by simp [hx]))
      have v1 := (b64Char_facts (a / 4) (by omega)).1
      have v2 := (b64Char_facts (a % 4 * 16 + b / 16) (by omega)).1
      have v3 := (b64Char_facts (b % 16 * 4 + c / 64) (by omega)).1
      have v4 := (b64Char_facts (c % 64) (by omega)).1
      simp [b64EncodeCore, b64Vals, mapVals, v1, v2, v3, v4, ih']

theorem atobJS_b64EncodeBytes (b : List ℕ) (hb : ∀ x ∈ b, x < 256) :
    atobJS (b64EncodeBytes b) = some b := by
  simp only [atobJS]
  rw [filter_b64EncodeBytes b hb, if_pos (length_b64EncodeBytes_mod b),
      b64EncodeBytes_eq_core_pad, stripPad_core_pad b hb,
      if_neg (core_length_mod_ne_one b), mapVals_core b hb]
  simp [quadsToBytes_b64Vals b hb]

theorem splitOnChar_of_not_mem (sep : Char) (xs : List Char) (h : sep ∉ xs) :
    splitOnChar sep xs = [xs] := by
  induction xs with
  | nil => rfl
  | cons c rest ih =>
      have hc : ¬ c = sep := fun e => h (by simp [e])
      have ih' := ih (fun hm => h (List.mem_cons_of_mem _ hm))
      simp [splitOnChar, hc, ih']

theorem splitOnChar_append (sep : Char) (xs ys : List Char) (h : sep ∉ xs) :
    splitOnChar sep (xs ++ sep :: ys) = xs :: splitOnChar sep ys := by
  induction xs with
  | nil => simp [splitOnChar]
  | cons c rest ih =>
      have hc : ¬ c = sep := fun e => h (by simp [e])
      have ih' := ih (fun hm => h (List.mem_cons_of_mem _ hm))
      simp [splitOnChar, hc, ih']

theorem greedyCapture_none_of_short (pat l : List Char) (hpat : pat ≠ [])
    (h : l.length < pat.length) : greedyCapture pat l = none := by
  induction l with
  | nil =>
      cases pat with
      | nil => exact absurd rfl hpat
      | cons p ps => rfl
  | cons c rest ih =>
      have ih' := ih (by simp at h ⊢; omega)
      have hp : pat.isPrefixOf (c :: rest) = false := by
        cases hb : pat.isPrefixOf (c :: rest) with
        | false => rfl
        | true =>
            have hle := List.IsPrefix.length_le (List.isPrefixOf_iff_prefix.mp hb)
            simp at hle h
            omega
      cases hlt : isJsLineTerm c <;> simp [greedyCapture, hlt, ih', hp]

theorem greedyCapture_pat_self_append (m : List Char)
    (hm : ∀ ch ∈ m, isJsLineTerm ch = false) :
    greedyCapture ";base64".toList (m ++ ";base64".toList) = some m := by
  induction m with
  | nil => decide
  | cons ch m2 ih =>
      have hch := hm ch (List.mem_cons_self _ _)
      have ih' := ih (fun a ha => hm a (List.mem_cons_of_mem _ ha))
      have ih2 : greedyCapture [';', 'b', 'a', 's', 'e', '6', '4']
          (m2 ++ [';', 'b', 'a', 's', 'e', '6', '4']) = some m2 := ih'
      simp [greedyCapture, hch, ih2]

theorem matchMime_wellformed (m : List Char)
    (hm : ∀ ch ∈ m, isJsLineTerm ch = false) :
    matchMime ("data:".toList ++ m ++ ";base64".toList) = some m := by
  have hg : greedyCapture [';', 'b', 'a', 's', 'e', '6', '4']
      (m ++ [';', 'b', 'a', 's', 'e', '6', '4']) = some m :=
    greedyCapture_pat_self_append m hm
  show matchMime ('d' :: 'a' :: 't' :: 'a' :: ':' :: (m ++ ";base64".toList)) = some m
  simp [matchMime, List.isPrefixOf, hg]

theorem dataUrlToBlob_roundtrip (m : List Char) (b : List ℕ) (hm1 : ',' ∉ m)
    (hm2 : ∀ ch ∈ m, isJsLineTerm ch = false) (hb : ∀ x ∈ b, x < 256) :
    dataUrlToBlob ("data:".toList ++ m ++ ";base64,".toList ++ b64EncodeBytes b)
      = some ⟨b, m⟩ := by
  have hsplit : "data:".toList ++ m ++ ";base64,".toList ++ b64EncodeBytes b
      = ("data:".toList ++ m ++ ";base64".toList) ++ (',' :: b64EncodeBytes b) := by
    simp [List.append_assoc]
  have hheader : ',' ∉ ("data:".toList ++ m ++ ";base64".toList) := by
    intro hmem
    rcases List.mem_append.mp hmem with hmem1 | hmem2
    · rcases List.mem_append.mp hmem1 with h1 | h2
      · exact absurd h1 (by decide)
      · exact hm1 h2
    · exact absurd hmem2 (by decide)
  have hsp : splitOnChar ','
      (("data:".toList ++ m ++ ";base64".toList) ++ (',' :: b64EncodeBytes b))
      = ("data:".toList ++ m ++ ";base64".toList) :: [b64EncodeBytes b] := by
    rw [splitOnChar_append _ _ _ hheader,
        splitOnChar_of_not_mem _ _ (comma_not_mem_b64EncodeBytes b hb)]
  rw [hsplit]
  simp only [dataUrlToBlob, hsp]
  have hmw : matchMime ('d' :: 'a' :: 't' :: 'a' :: ':' ::
      (m ++ [';', 'b', 'a', 's', 'e', '6', '4'])) = some m := matchMime_wellformed m hm2
  simp [hmw, atobJS_b64EncodeBytes b hb]

theorem buildForm_names (s : FormState) (f : FileVal) :
    (buildForm s f).map FormField.name =
      "file" :: ((if s.width ≠ "" ∨ s.height ≠ "" then
          (if s.width ≠ "" then ["width"] else [])
            ++ (if s.height ≠ "" then ["height"] else [])
        else ["scale"])
      ++ ["denoise_luma", "denoise_color", "clahe_clip", "sharpen_amount",
          "sharpen_sigma", "saturation"]) := by
  by_cases hw : s.width = "" <;> by_cases hh : s.height = "" <;>
    simp [buildForm, hw, hh]

/-! ## Claims -/

/-- C1: for every form submission, if the targetWidth or targetHeight text
field is non-empty then the multipart request contains no `scale` field at
all; with both empty the request contains the `scale` field. -/
theorem c1_scale_ignored_when_geometry_set (s : FormState) (f : FileVal) :
    ((s.width ≠ "" ∨ s.height ≠ "") →
        "scale" ∉ (buildForm s f).map FormField.name)
  ∧ (s.width = "" ∧ s.height = "" →
        "scale" ∈ (buildForm s f).map FormField.name) := by
  constructor
  · intro h hmem
    rw [buildForm_names] at hmem
    by_cases hw : s.width = "" <;> by_cases hh : s.height = "" <;>
      simp [hw, hh] at hmem h
  · rintro ⟨hw, hh⟩
    rw [buildForm_names]
    simp [hw, hh]

/-- Witness for C1: a state with the width field set omits `scale`; the
initial (both empty) state includes it. -/
theorem c1_witness :
    ("scale" ∉ (buildForm { initState with width := "300" } ⟨[7]⟩).map FormField.name)
  ∧ ("scale" ∈ (buildForm initState ⟨[7]⟩).map FormField.name) :=
  ⟨(c1_scale_ignored_when_geometry_set _ _).1 (Or.inl (by decide)),
   (c1_scale_ignored_when_geometry_set _ _).2 ⟨rfl, rfl⟩⟩

/-- C2 fails as stated: the multipart field names are the snake_case wire
names (`denoise_luma` and so on, with `width`/`height` for geometry), not
§3's camelCase enumeration (`denoiseLuma`, `targetWidth`, …); shown on the
default state's submission. -/
theorem c2_counterexample :
    (buildForm initState ⟨[7]⟩).map FormField.name =
      ["file", "scale", "denoise_luma", "denoise_color", "clahe_clip",
       "sharpen_amount", "sharpen_sigma", "saturation"]
  ∧ "denoiseLuma" ∉ (buildForm initState ⟨[7]⟩).map FormField.name := by
  constructor
  · rfl
  · decide

/-- C2 amended: every submission with a chosen file issues exactly one POST
to `${API_BASE}/api/enhance` whose multipart form holds the `file` field
first plus, as string-encoded numbers, exactly the option fields under
their wire names — `width` and/or `height` (parsed integers, `scale`
omitted) when the corresponding text field is non-empty, otherwise
`scale` — and `denoise_luma`, `denoise_color`, `clahe_clip`,
`sharpen_amount`, `sharpen_sigma`, `saturation` with the state's values. -/
theorem c2_single_post_with_wire_fields
    (apiBase : String) (s : FormState) (f : FileVal) (o : Outcome)
    (h : s.file = some f) :
    ((onSubmit apiBase s o).1.filter Event.isRequest) =
      [.request (apiBase ++ "/api/enhance") "POST" (buildForm s f)]
  ∧ (buildForm s f).head? = some ⟨"file", .fileVal f⟩
  ∧ (buildForm s f).map FormField.name =
      "file" :: ((if s.width ≠ "" ∨ s.height ≠ "" then
          (if s.width ≠ "" then ["width"] else [])
            ++ (if s.height ≠ "" then ["height"] else [])
        else ["scale"])
      ++ ["denoise_luma", "denoise_color", "clahe_clip", "sharpen_amount",
          "sharpen_sigma", "saturation"])
  ∧ (s.width ≠ "" →
      (⟨"width", .numVal ((parseIntJS s.width).map (fun z => (z : ℚ)))⟩ : FormField)
        ∈ buildForm s f)
  ∧ (s.height ≠ "" →
      (⟨"height", .numVal ((parseIntJS s.height).map (fun z => (z : ℚ)))⟩ : FormField)
        ∈ buildForm s f)
  ∧ (s.width = "" ∧ s.height = "" →
      (⟨"scale", .numVal (some s.scale)⟩ : FormField) ∈ buildForm s f)
  ∧ (⟨"denoise_luma", .numVal (some s.denoiseLuma)⟩ : FormField) ∈ buildForm s f
  ∧ (⟨"denoise_color", .numVal (some s.denoiseColor)⟩ : FormField) ∈ buildForm s f
  ∧ (⟨"clahe_clip", .numVal (some s.claheClip)⟩ : FormField) ∈ buildForm s f
  ∧ (⟨"sharpen_amount", .numVal (some s.sharpenAmount)⟩ : FormField) ∈ buildForm s f
  ∧ (⟨"sharpen_sigma", .numVal (some s.sharpenSigma)⟩ : FormField) ∈ buildForm s f
  ∧ (⟨"saturation", .numVal (some s.saturation)⟩ : FormField) ∈ buildForm s f := by
  refine ⟨?_, ?_, buildForm_names s f, ?_, ?_, ?_, ?_, ?_, ?_, ?_, ?_, ?_⟩
  · cases o <;> simp [onSubmit, h, Event.isRequest]
  · rfl
  · intro hw
    by_cases hh : s.height = "" <;> simp [buildForm, hw, hh]
  · intro hh
    by_cases hw : s.width = "" <;> simp [buildForm, hw, hh]
  · rintro ⟨hw, hh⟩
    simp [buildForm, hw, hh]
  all_goals by_cases hw : s.width = "" <;> by_cases hh : s.height = "" <;>
    simp [buildForm, hw, hh]

/-- Witness for C2 amended at a concrete submission. -/
theorem c2_witness :
    ((onSubmit "http://localhost:8000" stWithFile (.ok emptyResult)).1.filter
        Event.isRequest) =
      [.request "http://localhost:8000/api/enhance" "POST" (buildForm stWithFile ⟨[7]⟩)]
  ∧ (⟨"denoise_luma", .numVal (some 5)⟩ : FormField) ∈ buildForm stWithFile ⟨[7]⟩ := by
  have h := c2_single_post_with_wire_fields "http://localhost:8000" stWithFile ⟨[7]⟩
    (.ok emptyResult) rfl
  exact ⟨h.1, h.2.2.2.2.2.2.1⟩

/-- C7: the UI's initial parameter values equal §3's documented defaults of
EnhancementOptions, with the targetWidth/targetHeight fields initially
unset (empty strings). -/
theorem c7_initial_values_are_defaults :
    initState.scale = 2 ∧ initState.denoiseLuma = 5 ∧ initState.denoiseColor = 5
  ∧ initState.claheClip = 2 ∧ initState.sharpenAmount = 0.6
  ∧ initState.sharpenSigma = 1.2 ∧ initState.saturation = 1.05
  ∧ initState.width = "" ∧ initState.height = ""
  ∧ initState.scale = defaultOptions.scale
  ∧ initState.denoiseLuma = (defaultOptions.denoiseLuma : ℚ)
  ∧ initState.denoiseColor = (defaultOptions.denoiseColor : ℚ)
  ∧ initState.claheClip = defaultOptions.claheClip
  ∧ initState.sharpenAmount = defaultOptions.sharpenAmount
  ∧ initState.sharpenSigma = defaultOptions.sharpenSigma
  ∧ initState.saturation = defaultOptions.saturation := by
  norm_num [initState, defaultOptions]

/-- C5: rendering of the four output formats is independent: for every API
response the result card renders, each format renders its download button
(and `png` additionally the preview) iff its key is present and truthy,
and each absent key renders nothing without failing the whole result. -/
theorem c5_formats_render_independently (r : ApiResult) :
    ∃ v, renderResult (some r) = some v
  ∧ v.preview = truthyStr r.png
  ∧ ("PNG" ∈ v.buttons ↔ truthyStr r.png = true)
  ∧ ("JPG" ∈ v.buttons ↔ truthyStr r.jpg = true)
  ∧ ("WEBP" ∈ v.buttons ↔ truthyStr r.webp = true)
  ∧ ("APNG" ∈ v.buttons ↔ truthyStr r.apng = true) := by
  refine ⟨_, rfl, rfl, ?_, ?_, ?_, ?_⟩ <;>
    cases hp : truthyStr r.png <;> cases hj : truthyStr r.jpg <;>
    cases hw : truthyStr r.webp <;> cases ha : truthyStr r.apng <;>
      simp [renderResult, downloadButtonRenders, hp, hj, hw, ha]

/-- C6: a failed request surfaces a user-visible error (naming the HTTP
status for a non-ok response, the thrown message — "Unknown error" when
falsy — for a network error) and the displayed result stays null, having
been cleared before the request and never set on the error path; a
successful request leaves the error null and stores the parsed JSON. -/
theorem c6_transport_errors_visible
    (apiBase : String) (s : FormState) (f : FileVal) (h : s.file = some f) :
    (∀ o, ((onSubmit apiBase s o).1.take 3) =
        [.setBusy true, .setError none, .setResult none])
  ∧ (∀ st, (onSubmit apiBase s (.httpErr st)).2.error
        = some ("API error: " ++ toString st)
      ∧ (onSubmit apiBase s (.httpErr st)).2.result = none)
  ∧ (∀ msg, (onSubmit apiBase s (.netErr msg)).2.error
        = some (if msg = "" then "Unknown error" else msg)
      ∧ (onSubmit apiBase s (.netErr msg)).2.result = none)
  ∧ (∀ d, (onSubmit apiBase s (.ok d)).2.error = none
      ∧ (onSubmit apiBase s (.ok d)).2.result = some d) := by
  refine ⟨?_, ?_, ?_, ?_⟩
  · intro o; cases o <;> simp [onSubmit, h]
  · intro st; simp [onSubmit, h]
  · intro msg; simp [onSubmit, h]
  · intro d; simp [onSubmit, h]

/-- Witness for C6 at a concrete failing request. -/
theorem c6_witness :
    stWithFile.file = some ⟨[7]⟩
  ∧ (onSubmit "x" stWithFile (.httpErr 500)).2.error = some "API error: 500"
  ∧ (onSubmit "x" stWithFile (.httpErr 500)).2.result = none := by
  have h := c6_transport_errors_visible "x" stWithFile ⟨[7]⟩ rfl
  refine ⟨rfl, ?_, (h.2.1 500).2⟩
  rw [(h.2.1 500).1]
  decide

/-- C10: no request is dispatched without a chosen file; the submit button
is disabled whenever no file is chosen or busy is set; every dispatched
submission sets busy first, issues exactly one request, and clears busy
last on both the success and error paths. -/
theorem c10_no_request_without_file
    (apiBase : String) (s : FormState) (o : Outcome) :
    (s.file = none → onSubmit apiBase s o = ([], s))
  ∧ (∀ f, s.file = some f →
        ((onSubmit apiBase s o).1.filter Event.isRequest).length = 1
      ∧ (onSubmit apiBase s o).1.head? = some (.setBusy true)
      ∧ (onSubmit apiBase s o).1.getLast? = some (.setBusy false)
      ∧ (onSubmit apiBase s o).2.busy = false)
  ∧ (submitDisabled s = true ↔ s.file = none ∨ s.busy = true) := by
  refine ⟨?_, ?_, ?_⟩
  · intro h; simp [onSubmit, h]
  · intro f h
    cases o <;> refine ⟨?_, ?_, ?_, ?_⟩ <;>
      simp [onSubmit, h, Event.isRequest]
  · cases hf : s.file <;> cases hb : s.busy <;>
      simp [submitDisabled, canSubmit, hf, hb]

/-- Witness for C10 at concrete states. -/
theorem c10_witness :
    initState.file = none
  ∧ onSubmit "x" initState (.httpErr 404) = ([], initState)
  ∧ stWithFile.file = some ⟨[7]⟩
  ∧ ((onSubmit "x" stWithFile (.httpErr 404)).1.filter Event.isRequest).length = 1 := by
  have h1 := (c10_no_request_without_file "x" initState (.httpErr 404)).1 rfl
  have h2 := ((c10_no_request_without_file "x" stWithFile (.httpErr 404)).2.1 ⟨[7]⟩ rfl).1
  exact ⟨rfl, h1, rfl, h2⟩

theorem round_eq_of (q : ℚ) (z : ℤ) (h1 : (z : ℚ) ≤ q + 1/2) (h2 : q + 1/2 < z + 1) :
    round q = z := by
  rw [round_eq]
  exact Int.floor_eq_iff.mpr ⟨h1, by exact_mod_cast h2⟩

/-- C3 (spec-modelled: the Geometry Planner is not under src/): both
targets verbatim when both set; the missing dimension completed by rounded
aspect-ratio scaling when one is set; both dimensions scaled by `scale`
when neither is; the spec's four worked examples; and failure with
InvalidGeometryError iff a resulting dimension is below 1. -/
theorem c3_geometry_planner :
    plan 100 50 { defaultOptions with targetWidth := some 200 } = .ok (200, 100)
  ∧ plan 100 50 { defaultOptions with targetHeight := some 25 } = .ok (50, 25)
  ∧ plan 100 50 { defaultOptions with scale := 3 } = .ok (300, 150)
  ∧ plan 100 50
      { defaultOptions with targetWidth := some 10, targetHeight := some 10 }
      = .ok (10, 10)
  ∧ (∀ (sw sh : ℤ) (o : EnhancementOptions) (w h : ℤ),
        o.targetWidth = some w → o.targetHeight = some h →
        planTarget sw sh o = (w, h))
  ∧ (∀ (sw sh : ℤ) (o : EnhancementOptions) (w : ℤ),
        o.targetWidth = some w → o.targetHeight = none →
        planTarget sw sh o = (w, round (((w : ℚ) * (sh : ℚ)) / (sw : ℚ))))
  ∧ (∀ (sw sh : ℤ) (o : EnhancementOptions) (h : ℤ),
        o.targetWidth = none → o.targetHeight = some h →
        planTarget sw sh o = (round (((h : ℚ) * (sw : ℚ)) / (sh : ℚ)), h))
  ∧ (∀ sw sh o, o.targetWidth = none → o.targetHeight = none →
        planTarget sw sh o = (round ((sw : ℚ) * o.scale), round ((sh : ℚ) * o.scale)))
  ∧ (∀ sw sh o, plan sw sh o = .error .invalidGeometry ↔
        (planTarget sw sh o).1 < 1 ∨ (planTarget sw sh o).2 < 1)
  ∧ (∀ sw sh o, ¬((planTarget sw sh o).1 < 1 ∨ (planTarget sw sh o).2 < 1) →
        plan sw sh o = .ok (planTarget sw sh o)) := by
  have hr1 : round ((200 : ℚ) * 50 / 100) = 100 :=
    round_eq_of _ _ (by norm_num) (by norm_num)
  have hr2 : round ((25 : ℚ) * 100 / 50) = 50 :=
    round_eq_of _ _ (by norm_num) (by norm_num)
  have hr3 : round ((100 : ℚ) * 3) = 300 :=
    round_eq_of _ _ (by norm_num) (by norm_num)
  have hr4 : round ((50 : ℚ) * 3) = 150 :=
    round_eq_of _ _ (by norm_num) (by norm_num)
  refine ⟨?_, ?_, ?_, ?_, ?_, ?_, ?_, ?_, ?_, ?_⟩
  · simp [plan, planTarget, defaultOptions, hr1]
  · simp [plan, planTarget, defaultOptions, hr2]
  · simp [plan, planTarget, defaultOptions, hr3, hr4]
  · simp [plan, planTarget, defaultOptions]
  · intro sw sh o w h h1 h2; simp [planTarget, h1, h2]
  · intro sw sh o w h1 h2; simp [planTarget, h1, h2]
  · intro sw sh o h h1 h2; simp [planTarget, h1, h2]
  · intro sw sh o h1 h2; simp [planTarget, h1, h2]
  · intro sw sh o
    by_cases hc : (planTarget sw sh o).1 < 1 ∨ (planTarget sw sh o).2 < 1 <;>
      simp [plan, hc]
  · intro sw sh o hc; simp [plan, hc]

/-- Witness for C3 at concrete inputs. -/
theorem c3_witness :
    planTarget 100 50
      { defaultOptions with targetWidth := some 10, targetHeight := some 10 } = (10, 10)
  ∧ plan 7 7 { defaultOptions with targetWidth := some (-3) }
      = .error .invalidGeometry := by
  refine ⟨c3_geometry_planner.2.2.2.2.1 100 50 _ 10 10 rfl rfl, ?_⟩
  exact (c3_geometry_planner.2.2.2.2.2.2.2.2.1 7 7 _).mpr (by decide)

/-- C8 (spec-modelled: the validation and pipeline layers are not under
src/): out-of-range inputs are rejected before image processing —
scale = −1 fails option validation with InvalidOptionError; width = 0
fails option validation (InvalidOptionError) and, taken at the planner,
yields InvalidGeometryError; `enhance` returns the error without running a
stage; and the UI transmits a width field "0" as the number 0. -/
theorem c8_out_of_range_rejected :
    validateOptions { defaultOptions with scale := -1 } = .error .invalidOption
  ∧ validateOptions { defaultOptions with targetWidth := some 0 }
      = .error .invalidOption
  ∧ plan 100 50 { defaultOptions with targetWidth := some 0 }
      = .error .invalidGeometry
  ∧ (∀ img : Image, enhance img { defaultOptions with scale := -1 }
      = .error .invalidOption)
  ∧ (∀ img : Image, enhance img { defaultOptions with targetWidth := some 0 }
      = .error .invalidOption)
  ∧ parseIntJS "0" = some 0
  ∧ (⟨"width", .numVal (some 0)⟩ : FormField)
      ∈ buildForm { initState with width := "0" } ⟨[7]⟩ := by
  refine ⟨rfl, rfl, rfl, fun img => rfl, fun img => rfl, rfl, ?_⟩
  decide

/-- C4 (spec-modelled: the pipeline is not under src/): each of the seven
stages keeps every sample of its output image inside [0,255] on every
valid input — out-of-range intermediates saturate at the 8-bit bounds
(clamping), they are never wrapped modulo 256. -/
theorem c4_stages_preserve_range :
    (∀ img o, img.valid → ∀ s ∈ (denoiseStage img o).data, 0 ≤ s ∧ s ≤ 255)
  ∧ (∀ img o, img.valid → ∀ s ∈ (whiteBalanceStage img o).data, 0 ≤ s ∧ s ≤ 255)
  ∧ (∀ img o, img.valid → ∀ s ∈ (claheStage img o).data, 0 ≤ s ∧ s ≤ 255)
  ∧ (∀ img o, img.valid → ∀ s ∈ (stretchStage img o).data, 0 ≤ s ∧ s ≤ 255)
  ∧ (∀ img tw th, img.valid → ∀ s ∈ (resizeStage img tw th).data, 0 ≤ s ∧ s ≤ 255)
  ∧ (∀ img o, img.valid → ∀ s ∈ (sharpenStage img o).data, 0 ≤ s ∧ s ≤ 255)
  ∧ (∀ img o, img.valid → ∀ s ∈ (saturationStage img o).data, 0 ≤ s ∧ s ≤ 255)
  ∧ clamp8 300 = 255 ∧ clamp8 (-5) = 0
  ∧ (300 : ℤ) % 256 = 44 ∧ (-5 : ℤ) % 256 = 251 := by
  refine ⟨?_, ?_, ?_, ?_, ?_, ?_, ?_, by decide, by decide, by decide, by decide⟩
  all_goals first
    | (intro img o hv s hs; exact mem_mkImage hs)
    | (intro img tw th hv s hs; exact mem_mkImage hs)

/-- Witness for C4 at a concrete valid 1×1 image. -/
theorem c4_witness :
    (⟨1, 1, 1, [200]⟩ : Image).valid
  ∧ (∀ s ∈ (claheStage ⟨1, 1, 1, [200]⟩ defaultOptions).data, 0 ≤ s ∧ s ≤ 255)
  ∧ (∀ s ∈ (sharpenStage ⟨1, 1, 1, [200]⟩ defaultOptions).data, 0 ≤ s ∧ s ≤ 255) :=
  ⟨by decide,
   c4_stages_preserve_range.2.2.1 ⟨1, 1, 1, [200]⟩ defaultOptions (by decide),
   c4_stages_preserve_range.2.2.2.2.2.1 ⟨1, 1, 1, [200]⟩ defaultOptions (by decide)⟩

/-- C9 fails as stated: for the MIME type string "a,b" (a comma) the split
at commas cuts inside the header, `atob` is applied to "b;base64" and
throws, and no Blob at all is returned — not one carrying bytes and type. -/
theorem c9_counterexample :
    dataUrlToBlob ("data:".toList ++ "a,b".toList ++ ";base64,".toList
        ++ b64EncodeBytes [7])
      ≠ some ⟨[7], "a,b".toList⟩
  ∧ dataUrlToBlob ("data:".toList ++ "a,b".toList ++ ";base64,".toList
        ++ b64EncodeBytes [7])
      = none := by
  constructor
  · decide
  · decide

/-- C9 amended: for every MIME type string `m` free of commas and line
terminators and every byte sequence `b`, `dataUrlToBlob` is a left inverse
of data-URL encoding — it returns the Blob with exactly the bytes `b` and
type `m`; and whenever a Blob is returned although the header does not
match the `data:<mime>;base64` pattern, its type is
"application/octet-stream" (when decoding fails, no Blob is returned at
all). -/
theorem c9_dataUrlToBlob_left_inverse :
    (∀ (m : List Char) (b : List ℕ), ',' ∉ m →
      (∀ ch ∈ m, isJsLineTerm ch = false) → (∀ x ∈ b, x < 256) →
      dataUrlToBlob ("data:".toList ++ m ++ ";base64,".toList ++ b64EncodeBytes b)
        = some ⟨b, m⟩)
  ∧ (∀ (s : List Char) (blob : Blob), dataUrlToBlob s = some blob →
      matchMime ((splitOnChar ',' s).headD []) = none →
      blob.type = "application/octet-stream".toList) := by
  constructor
  · exact dataUrlToBlob_roundtrip
  · intro s blob h hmm2
    simp only [dataUrlToBlob, hmm2, Option.getD_none] at h
    rcases hdrop : (splitOnChar ',' s).drop 1 with _ | ⟨b64, rest⟩ <;>
      rw [hdrop] at h <;>
      · rcases Option.map_eq_some'.mp h with ⟨bs, _, rfl⟩
        rfl

/-- Witness for C9 amended at the MIME type "image/png" with bytes
[1,2,3], and at a patternless header with a decodable body. -/
theorem c9_witness :
    (',' ∉ "image/png".toList)
  ∧ (∀ ch ∈ "image/png".toList, isJsLineTerm ch = false)
  ∧ (∀ x ∈ [1, 2, 3], x < 256)
  ∧ dataUrlToBlob ("data:".toList ++ "image/png".toList ++ ";base64,".toList
        ++ b64EncodeBytes [1, 2, 3])
      = some ⟨[1, 2, 3], "image/png".toList⟩
  ∧ dataUrlToBlob "xx,AAAA".toList
      = some ⟨[0, 0, 0], "application/octet-stream".toList⟩
  ∧ matchMime ((splitOnChar ',' "xx,AAAA".toList).headD []) = none
  ∧ (⟨[0, 0, 0], "application/octet-stream".toList⟩ : Blob).type
      = "application/octet-stream".toList :=
  ⟨by decide, by decide, by decide,
   c9_dataUrlToBlob_left_inverse.1 _ _ (by decide) (by decide) (by decide),
   by decide, by decide,
   c9_dataUrlToBlob_left_inverse.2 "xx,AAAA".toList _ (by decide) (by decide)⟩

end ImageEnhancer
